import Mathlib

/-!
Verification of the Mesos slave (node agent) in-memory registry:
the `Executor` and `Framework` structs of `src/slave/slave.hpp` and the
reaper contract exercised by `src/tests/reaper_tests.cpp`.

Modelling conventions:
* Protobuf message ids (`TaskID`, `ExecutorID`, ...) are their `value`
  strings.
* The resource-accounting library (`common/resources.hpp`) is external to
  the covered core; a `Resources` value is modelled as a multiset of named
  scalar resources, `+=` as multiset addition and `-=` of a single
  `Resource` as erasing one occurrence.  This refines the C++ value
  semantics: summing values per name commutes with both operations.
* `hashmap<K, V>` is modelled as an association list with the hashmap's
  lookup/assign/erase semantics.
* `boost::circular_buffer` is modelled as a capacity plus a list, with
  `push_back` evicting the oldest element when full.
* A fatal `CHECK(...)` failure (process abort) is modelled by returning
  `none` from the aborted operation.
-/

namespace MesosSlave

/-- A single scalar resource: name and amount. -/
abbrev Resource := String × Int

/-- A `Resources` bag (see header comment on the modelling). -/
abbrev Resources := Multiset Resource

abbrev TaskID := String
abbrev ExecutorID := String
abbrev FrameworkID := String

/-- A libprocess `UPID`; `UPID()` is the empty (zero) pid. -/
abbrev UPID := String

/-- Task states from `mesos.proto`. -/
inductive TaskState where
  | TASK_STAGING
  | TASK_STARTING
  | TASK_RUNNING
  | TASK_FINISHED
  | TASK_FAILED
  | TASK_KILLED
  | TASK_LOST
deriving DecidableEq

/-- `CommandInfo`: a command string plus URIs and environment. -/
structure CommandInfo where
  value : String
  uris : List String
  environment : List (String × String)
deriving DecidableEq

/-- `ExecutorInfo` (the fields the slave core reads and writes). -/
structure ExecutorInfo where
  executor_id : ExecutorID
  name : String
  source : String
  command : CommandInfo
  resources : List Resource
deriving DecidableEq

/-- `TaskInfo` as received from the master. -/
structure TaskInfo where
  name : String
  task_id : TaskID
  resources : List Resource
  executor : Option ExecutorInfo
  command : Option CommandInfo
deriving DecidableEq

/-- An in-memory `Task` record. -/
structure Task where
  name : String
  task_id : TaskID
  framework_id : FrameworkID
  executor_id : ExecutorID
  state : TaskState
  resources : List Resource
deriving DecidableEq

/-- The protobuf setter `Task::set_state`. -/
def Task.set_state (t : Task) (s : TaskState) : Task := { t with state := s }

/-- Modelled from the spec: `protobuf::createTask` (from
`common/protobuf_utils.hpp`, which is not under `src/`) builds a `Task`
carrying the `TaskInfo`'s task-ID, name and declared resources together
with the given state, executor-ID and framework-ID. -/
def createTask (task : TaskInfo) (state : TaskState) (executorId : ExecutorID)
    (frameworkId : FrameworkID) : Task :=
  { name := task.name
    task_id := task.task_id
    framework_id := frameworkId
    executor_id := executorId
    state := state
    resources := task.resources }

/-- `hashmap` lookup (`operator[]` on a present key). -/
def lookupKey (k : String) : List (String × α) → Option α
  | [] => none
  | (k', v) :: rest => if k' = k then some v else lookupKey k rest

/-- `hashmap::contains`. -/
def containsKey (k : String) (l : List (String × α)) : Bool :=
  (lookupKey k l).isSome

/-- `hashmap::erase`. -/
def eraseKey (k : String) (l : List (String × α)) : List (String × α) :=
  l.filter (fun p => p.1 != k)

/-- `hashmap` assignment `m[k] = v`: replace if present, insert otherwise. -/
def insertKey (k : String) (v : α) (l : List (String × α)) : List (String × α) :=
  if containsKey k l then l.map (fun p => if p.1 = k then (k, v) else p)
  else (k, v) :: l

/-- `boost::circular_buffer`: a capacity and the stored elements, oldest
first. -/
structure CircularBuffer (α : Type) where
  capacity : Nat
  data : List α
deriving DecidableEq

/-- `circular_buffer::push_back`: appends, evicting the oldest element
when the buffer is full (a zero-capacity buffer stores nothing). -/
def CircularBuffer.push_back (b : CircularBuffer α) (x : α) : CircularBuffer α :=
  if b.capacity = 0 then b
  else if b.data.length < b.capacity then { b with data := b.data ++ [x] }
  else { b with data := b.data.tail ++ [x] }

/-- Modelled from the spec: `slave/constants.hpp` is not under `src/`; the
spec names this bound without a numeric value, so the upstream value is
used (the theorems below do not depend on it). -/
def MAX_COMPLETED_TASKS_PER_EXECUTOR : Nat := 1000

/-- Modelled from the spec: `slave/constants.hpp` is not under `src/`; the
spec names this bound without a numeric value, so the upstream value is
used (the theorems below do not depend on it). -/
def MAX_COMPLETED_EXECUTORS_PER_FRAMEWORK : Nat := 150

/-- The slave's `Executor` struct. -/
structure Executor where
  id : ExecutorID
  info : ExecutorInfo
  frameworkId : FrameworkID
  directory : String
  uuid : String
  pid : UPID
  shutdown : Bool
  resources : Resources
  queuedTasks : List (TaskID × TaskInfo)
  launchedTasks : List (TaskID × Task)
  completedTasks : CircularBuffer Task
deriving DecidableEq

/-- The `Executor` constructor. -/
def mkExecutor (frameworkId : FrameworkID) (info : ExecutorInfo)
    (uuid : String) (directory : String) : Executor :=
  { id := info.executor_id
    info := info
    frameworkId := frameworkId
    directory := directory
    uuid := uuid
    pid := ""
    shutdown := false
    resources := (info.resources : Resources)
    queuedTasks := []
    launchedTasks := []
    completedTasks := { capacity := MAX_COMPLETED_TASKS_PER_EXECUTOR, data := [] } }

/-- `Executor::addTask`: `CHECK`s the task-ID is fresh (abort modelled as
`none`), records the task as `TASK_STAGING` and charges its resources. -/
def Executor.addTask (e : Executor) (task : TaskInfo) : Option Executor :=
  if containsKey task.task_id e.launchedTasks then none
  else
    let t := createTask task TaskState.TASK_STAGING e.id e.frameworkId
    some { e with
            launchedTasks := insertKey task.task_id t e.launchedTasks
            resources := e.resources + (task.resources : Resources) }

/-- `Executor::removeTask`: always erases the id from `queuedTasks`; if it
was launched, releases that task's resources, erases it from
`launchedTasks` and pushes a copy onto `completedTasks`. -/
def Executor.removeTask (e : Executor) (taskId : TaskID) : Executor :=
  let e1 := { e with queuedTasks := eraseKey taskId e.queuedTasks }
  match lookupKey taskId e1.launchedTasks with
  | none => e1
  | some task =>
      { e1 with
          resources := task.resources.foldl (fun r x => r.erase x) e1.resources
          launchedTasks := eraseKey taskId e1.launchedTasks
          completedTasks := e1.completedTasks.push_back task }

/-- `Executor::updateTaskState`: sets the state of a launched task, and
does nothing for an unknown task-ID. -/
def Executor.updateTaskState (e : Executor) (taskId : TaskID)
    (state : TaskState) : Executor :=
  if containsKey taskId e.launchedTasks then
    { e with
        launchedTasks := e.launchedTasks.map
          (fun p => if p.1 = taskId then (p.1, p.2.set_state state) else p) }
  else e

/-- The operations the slave performs on an `Executor`'s task maps. -/
inductive ExecOp where
  | add (task : TaskInfo)
  | remove (taskId : TaskID)
  | update (taskId : TaskID) (state : TaskState)
  | enqueue (task : TaskInfo)

/-- One slave-driven step on an executor.  `enqueue` is modelled from the
spec: `Slave::runTask` (in `slave.cpp`, not under `src/`) inserts a
pending task into `queuedTasks` before the executor registers. -/
def Executor.applyOp (e : Executor) : ExecOp → Option Executor
  | .add task => e.addTask task
  | .remove taskId => some (e.removeTask taskId)
  | .update taskId state => some (e.updateTaskState taskId state)
  | .enqueue task =>
      some { e with queuedTasks := insertKey task.task_id task e.queuedTasks }

/-- Run a sequence of executor operations; `none` if any step aborts. -/
def Executor.runOps (e : Executor) : List ExecOp → Option Executor
  | [] => some e
  | op :: ops => (e.applyOp op).bind (fun e' => Executor.runOps e' ops)

/-- Sum of the declared resources of the tasks in a task map. -/
def tasksResources (l : List (TaskID × Task)) : Resources :=
  (l.map (fun p => (p.2.resources : Resources))).sum

/-- Sum of the declared resources of the tasks currently in
`launchedTasks`. -/
def launchedResources (e : Executor) : Resources :=
  tasksResources e.launchedTasks

/-- stout's `Try<T>`: either a value or an error message. -/
inductive Try (α : Type) where
  | ok (value : α)
  | failure (message : String)

/-- stout's `path::join`. -/
def pathJoin (a b : String) : String := a ++ "/" ++ b

/-- The slave flags getExecutorInfo reads. -/
structure Flags where
  launcher_dir : String
  work_dir : String
deriving DecidableEq

/-- `FrameworkInfo` (the fields the slave core reads). -/
structure FrameworkInfo where
  name : String
  user : String
deriving DecidableEq

/-- The slave's `Framework` struct (the in-flight `updates` map is not
touched by any operation modelled here and is omitted). -/
structure Framework where
  id : FrameworkID
  info : FrameworkInfo
  pid : UPID
  flags : Flags
  shutdown : Bool
  executors : List (ExecutorID × Executor)
  completedExecutors : CircularBuffer Executor
deriving DecidableEq

/-- The `Framework` constructor. -/
def mkFramework (id : FrameworkID) (info : FrameworkInfo) (pid : UPID)
    (flags : Flags) : Framework :=
  { id := id
    info := info
    pid := pid
    flags := flags
    shutdown := false
    executors := []
    completedExecutors :=
      { capacity := MAX_COMPLETED_EXECUTORS_PER_FRAMEWORK, data := [] } }

/-- `Framework::getExecutorInfo`.  The `CHECK(has_executor != has_command)`
abort is modelled as `none`; the `os::realpath` call is modelled by an
oracle `realpath` describing the filesystem. -/
def Framework.getExecutorInfo (fw : Framework) (realpath : String → Try String)
    (task : TaskInfo) : Option ExecutorInfo :=
  if task.executor.isSome = task.command.isSome then none
  else
    match task.command with
    | some cmd =>
        let name0 := "(Task: " ++ task.task_id ++ ") " ++ "(Command: sh -c \x27"
        let name :=
          if cmd.value.length > 15 then
            name0 ++ cmd.value.take 12 ++ "...\x27)"
          else
            name0 ++ cmd.value ++ "\x27)"
        let command :=
          match realpath (pathJoin fw.flags.launcher_dir "mesos-executor") with
          | Try.ok p => { cmd with value := p }
          | Try.failure msg =>
              { cmd with value := "echo \x27" ++ msg ++ "\x27; exit 1" }
        some { executor_id := task.task_id
               name := "Command Executor " ++ name
               source := task.task_id
               command := command
               resources := [] }
    | none => task.executor

/-- `Framework::createExecutor`: the fresh UUID and the sandbox directory
created on disk are inputs of the model; the `CHECK` on a duplicate
executor-ID is modelled as `none`. -/
def Framework.createExecutor (fw : Framework) (executorInfo : ExecutorInfo)
    (uuid : String) (directory : String) : Option Framework :=
  let executor := mkExecutor fw.id executorInfo uuid directory
  if containsKey executorInfo.executor_id fw.executors then none
  else
    some { fw with
            executors := insertKey executorInfo.executor_id executor fw.executors }

/-- `Framework::destroyExecutor`: moves a live executor into the
`completedExecutors` ring buffer. -/
def Framework.destroyExecutor (fw : Framework) (executorId : ExecutorID) :
    Framework :=
  match lookupKey executorId fw.executors with
  | none => fw
  | some executor =>
      { fw with
          executors := eraseKey executorId fw.executors
          completedExecutors := fw.completedExecutors.push_back executor }

/-- The operations the slave performs on a `Framework`'s executor map. -/
inductive FrameworkOp where
  | createExec (info : ExecutorInfo) (uuid : String) (directory : String)
  | destroyExec (executorId : ExecutorID)
  | taskOp (executorId : ExecutorID) (op : ExecOp)

/-- One slave-driven step on a framework: create or destroy an executor,
or apply a task operation to a live executor (looked up by id, as the
slave does). -/
def Framework.applyOp (fw : Framework) : FrameworkOp → Option Framework
  | .createExec info uuid directory => fw.createExecutor info uuid directory
  | .destroyExec executorId => some (fw.destroyExecutor executorId)
  | .taskOp executorId op =>
      match lookupKey executorId fw.executors with
      | none => some fw
      | some e =>
          (e.applyOp op).map
            (fun e' => { fw with executors := insertKey executorId e' fw.executors })

/-- Run a sequence of framework operations; `none` if any step aborts. -/
def Framework.runOps (fw : Framework) : List FrameworkOp → Option Framework
  | [] => some fw
  | op :: ops => (fw.applyOp op).bind (fun fw' => Framework.runOps fw' ops)

/-!
The reaper.  Its implementation (`slave/reaper.cpp`) is not under `src/`;
only its test `src/tests/reaper_tests.cpp` is.  The model below is
modelled from the spec, §4.A: `monitor(pid)` registers interest in an
arbitrary PID, `addListener` subscribes a listener, and a periodic tick
polls every monitored PID against a liveness oracle; on observing a PID
gone it notifies every listener once and drops the PID.
-/

/-- Modelled from the spec: the reaper's state, its subscribed listeners
and the set of monitored PIDs. -/
structure Reaper where
  listeners : List String
  monitored : List Nat
deriving DecidableEq

/-- Modelled from the spec: `Reaper::addListener` subscribes a listener. -/
def Reaper.addListener (r : Reaper) (l : String) : Reaper :=
  if l ∈ r.listeners then r else { r with listeners := r.listeners ++ [l] }

/-- Modelled from the spec: `Reaper::monitor` registers interest in a PID
(the process need not be a child). -/
def Reaper.monitor (r : Reaper) (p : Nat) : Reaper :=
  if p ∈ r.monitored then r else { r with monitored := r.monitored ++ [p] }

/-- Modelled from the spec: one polling tick against a liveness oracle.
Every monitored PID observed gone produces one `processExited`
notification `(listener, pid)` per listener and is dropped. -/
def Reaper.tick (r : Reaper) (alive : Nat → Bool) :
    Reaper × List (String × Nat) :=
  let dead := r.monitored.filter (fun p => !(alive p))
  ({ r with monitored := r.monitored.filter (fun p => alive p) },
   (dead.map (fun p => r.listeners.map (fun l => (l, p)))).flatten)

/-- The reaper's external events: subscriptions, monitor requests and
polling ticks (each tick carries the liveness oracle it observes). -/
inductive ReaperOp where
  | addListener (l : String)
  | monitor (p : Nat)
  | tick (alive : Nat → Bool)

/-- One reaper step, returning the notifications it emits. -/
def Reaper.step (r : Reaper) : ReaperOp → Reaper × List (String × Nat)
  | .addListener l => (r.addListener l, [])
  | .monitor p => (r.monitor p, [])
  | .tick alive => r.tick alive

/-- Run the reaper over a sequence of events, accumulating emitted
notifications in order. -/
def Reaper.run (r : Reaper) : List ReaperOp → Reaper × List (String × Nat)
  | [] => (r, [])
  | op :: ops =>
      let s1 := r.step op
      let s2 := Reaper.run s1.1 ops
      (s2.1, s1.2 ++ s2.2)

/-- Number of `monitor p` events in a sequence. -/
def countMonitor (p : Nat) : List ReaperOp → Nat
  | [] => 0
  | ReaperOp.monitor q :: ops => (if q = p then 1 else 0) + countMonitor p ops
  | _ :: ops => countMonitor p ops

/-- The freshly started reaper: no listeners, nothing monitored. -/
def mkReaper : Reaper := { listeners := [], monitored := [] }

/-- The executor resource-accounting invariant of claim C1, together with
the key-uniqueness of the `launchedTasks` hashmap that the list model
must carry explicitly. -/
def ExecInv (e : Executor) : Prop :=
  e.resources = (e.info.resources : Resources) + launchedResources e ∧
  (e.launchedTasks.map Prod.fst).Nodup

/-- A circular buffer is well-formed for a capacity: it was constructed
with that capacity and holds no more elements than it. -/
def BufWf (b : CircularBuffer α) (cap : Nat) : Prop :=
  b.capacity = cap ∧ b.data.length ≤ cap

/-- An executor's completed-task ring is well-formed. -/
def ExecutorWf (e : Executor) : Prop :=
  BufWf e.completedTasks MAX_COMPLETED_TASKS_PER_EXECUTOR

/-- A framework's completed-executor ring and every reachable executor's
completed-task ring are well-formed. -/
def FrameworkWf (fw : Framework) : Prop :=
  BufWf fw.completedExecutors MAX_COMPLETED_EXECUTORS_PER_FRAMEWORK ∧
  (∀ p ∈ fw.executors, ExecutorWf p.2) ∧
  (∀ e ∈ fw.completedExecutors.data, ExecutorWf e)

/-! ### Concrete sample data used to exercise the theorems -/

/-- A short command (9 characters). -/
def sampleCmd : CommandInfo :=
  { value := "sleep 100", uris := ["hdfs://x"], environment := [("K", "V")] }

/-- A long command (20 characters). -/
def longCmd : CommandInfo :=
  { value := "echo 0123456789abcde", uris := [], environment := [] }

/-- A concrete `ExecutorInfo`. -/
def sampleInfo : ExecutorInfo :=
  { executor_id := "e1"
    name := "exec one"
    source := "src"
    command := sampleCmd
    resources := [("cpus", 1), ("mem", 32)] }

/-- A concrete task carrying its own executor. -/
def sampleTask1 : TaskInfo :=
  { name := "task one"
    task_id := "t1"
    resources := [("cpus", 2)]
    executor := some sampleInfo
    command := none }

/-- A concrete command task. -/
def sampleTask2 : TaskInfo :=
  { name := "task two"
    task_id := "t2"
    resources := [("mem", 64)]
    executor := none
    command := some sampleCmd }

/-- A concrete command task with a long command string. -/
def sampleTask3 : TaskInfo :=
  { name := "task three"
    task_id := "t3"
    resources := []
    executor := none
    command := some longCmd }

/-- A freshly constructed executor. -/
def sampleExecutor : Executor := mkExecutor "f1" sampleInfo "uuid-1" "/tmp/e1"

/-- An executor with one launched task and one queued task. -/
def sampleBusyExecutor : Executor :=
  { sampleExecutor with
      launchedTasks :=
        [("t1", createTask sampleTask1 TaskState.TASK_STAGING "e1" "f1")]
      queuedTasks := [("t9", sampleTask2)]
      resources :=
        (sampleInfo.resources : Resources) + (sampleTask1.resources : Resources) }

/-- The executor state reached from the sample executor by adding task
`t1`, enqueueing task `t2` and removing task `t1`. -/
def sampleRunEnd : Executor :=
  { sampleExecutor with
      queuedTasks := [("t2", sampleTask2)]
      completedTasks :=
        { capacity := MAX_COMPLETED_TASKS_PER_EXECUTOR
          data := [createTask sampleTask1 TaskState.TASK_STAGING "e1" "f1"] } }

/-- A concrete framework. -/
def sampleFramework : Framework :=
  mkFramework "f1" { name := "fw", user := "root" } "scheduler@host"
    { launcher_dir := "/usr/libexec/mesos", work_dir := "/var/lib/mesos" }

/-- The framework operations of the C6 scenario: create an executor, run
one task to completion on it, then destroy the executor. -/
def sampleFrameworkOps : List FrameworkOp :=
  [FrameworkOp.createExec sampleInfo "u1" "/d1",
    FrameworkOp.taskOp "e1" (ExecOp.add sampleTask1),
    FrameworkOp.taskOp "e1" (ExecOp.remove "t1"),
    FrameworkOp.destroyExec "e1"]

/-- The executor produced by the C6 scenario: one completed task. -/
def sampleExecEnd : Executor :=
  { mkExecutor "f1" sampleInfo "u1" "/d1" with
      completedTasks :=
        { capacity := MAX_COMPLETED_TASKS_PER_EXECUTOR
          data := [createTask sampleTask1 TaskState.TASK_STAGING "e1" "f1"] } }

/-- The framework state reached by the C6 scenario: no live executors, one
completed executor in the ring. -/
def sampleFwEnd : Framework :=
  { mkFramework "f1" { name := "fw", user := "root" } "scheduler@host"
      { launcher_dir := "/usr/libexec/mesos", work_dir := "/var/lib/mesos" } with
      completedExecutors :=
        { capacity := MAX_COMPLETED_EXECUTORS_PER_FRAMEWORK
          data := [sampleExecEnd] } }

/-- A filesystem oracle on which `realpath` succeeds. -/
def sampleRealpathOk : String → Try String :=
  fun _ => Try.ok "/usr/libexec/mesos/mesos-executor"

/-- A filesystem oracle on which `realpath` fails. -/
def sampleRealpathFail : String → Try String :=
  fun s => Try.failure ("No such file or directory: " ++ s)

/-! ### Association-list lemmas -/

theorem lookupKey_eq_none_iff (k : String) (l : List (String × α)) :
    lookupKey k l = none ↔ k ∉ l.map Prod.fst := by
  induction l with
  | nil => simp [lookupKey]
  | cons hd tl ih =>
      obtain ⟨k', v⟩ := hd
      by_cases h : k' = k <;> simp [lookupKey, h, ih] <;> tauto

theorem containsKey_eq_false_iff (k : String) (l : List (String × α)) :
    containsKey k l = false ↔ lookupKey k l = none := by
  cases h : lookupKey k l <;> simp [containsKey, h]

theorem lookupKey_mem (k : String) (l : List (String × α)) (v : α)
    (h : lookupKey k l = some v) : (k, v) ∈ l := by
  induction l with
  | nil => simp [lookupKey] at h
  | cons hd tl ih =>
      obtain ⟨k', w⟩ := hd
      by_cases hk : k' = k
      · subst hk
        simp [lookupKey] at h
        simp [h]
      · simp [lookupKey, hk] at h
        exact List.mem_cons_of_mem _ (ih h)

theorem eraseKey_of_not_mem (k : String) (l : List (String × α))
    (h : k ∉ l.map Prod.fst) : eraseKey k l = l := by
  apply List.filter_eq_self.mpr
  intro p hp
  simp only [bne_iff_ne, ne_eq, decide_eq_true_eq]
  intro hk
  exact h (by rw [← hk]; exact List.mem_map_of_mem Prod.fst hp)

theorem insertKey_of_not_contains (k : String) (v : α) (l : List (String × α))
    (h : containsKey k l = false) : insertKey k v l = (k, v) :: l := by
  simp [insertKey, h]

theorem mem_insertKey (k : String) (v : α) (l : List (String × α)) (p : String × α)
    (h : p ∈ insertKey k v l) : p = (k, v) ∨ p ∈ l := by
  unfold insertKey at h
  by_cases hc : containsKey k l
  · simp only [hc, if_true] at h
    obtain ⟨q, hq, hpq⟩ := List.mem_map.mp h
    by_cases hk : q.1 = k
    · simp [hk] at hpq
      exact Or.inl hpq.symm
    · simp [hk] at hpq
      exact Or.inr (hpq ▸ hq)
  · simp only [hc, if_false] at h
    rcases List.mem_cons.mp h with h | h
    · exact Or.inl h
    · exact Or.inr h

theorem eraseKey_sublist (k : String) (l : List (String × α)) :
    (eraseKey k l).Sublist l :=
  List.filter_sublist l

theorem nodup_keys_eraseKey (k : String) (l : List (String × α))
    (h : (l.map Prod.fst).Nodup) : ((eraseKey k l).map Prod.fst).Nodup :=
  h.sublist (List.Sublist.map Prod.fst (eraseKey_sublist k l))

theorem keys_map_modify (l : List (String × α)) (tid : String) (f : α → α) :
    ((l.map (fun p => if p.1 = tid then (p.1, f p.2) else p)).map Prod.fst) =
      l.map Prod.fst := by
  rw [List.map_map]
  apply List.map_congr_left
  intro p _
  by_cases h : p.1 = tid <;> simp [h]

theorem lookupKey_map_modify (l : List (String × α)) (f : α → α) (tid k : String) :
    lookupKey k (l.map (fun p => if p.1 = tid then (p.1, f p.2) else p)) =
      if k = tid then (lookupKey k l).map f else lookupKey k l := by
  induction l with
  | nil => by_cases h : k = tid <;> simp [lookupKey, h]
  | cons hd tl ih =>
      obtain ⟨k', v⟩ := hd
      have hhead : (if (k', v).1 = tid then ((k', v).1, f (k', v).2) else (k', v)) =
          if k' = tid then (k', f v) else (k', v) := rfl
      rw [List.map_cons, hhead]
      by_cases h1 : k' = tid
      · subst h1
        rw [if_pos rfl]
        by_cases h2 : k' = k
        · subst h2
          rw [lookupKey, if_pos rfl, if_pos rfl, lookupKey, if_pos rfl]
          rfl
        · have h2' : ¬ k = k' := fun h => h2 h.symm
          rw [lookupKey, if_neg h2, if_neg h2', lookupKey, if_neg h2, ih,
            if_neg h2']
      · rw [if_neg h1]
        by_cases h2 : k' = k
        · subst h2
          have h1' : ¬ k' = tid := h1
          rw [lookupKey, if_pos rfl, if_neg h1', lookupKey, if_pos rfl]
        · rw [lookupKey, if_neg h2, lookupKey, if_neg h2, ih]

theorem lookupKey_map_set_state (l : List (String × Task)) (st : TaskState)
    (tid k : String) :
    lookupKey k (l.map (fun p => if p.1 = tid then (p.1, p.2.set_state st) else p)) =
      if k = tid then (lookupKey k l).map (fun t => t.set_state st)
      else lookupKey k l :=
  lookupKey_map_modify l (fun t => t.set_state st) tid k

theorem map_sum_split_of_lookup {β : Type} [AddCommMonoid β]
    (g : String × α → β) (l : List (String × α)) (k : String) (v : α)
    (hnd : (l.map Prod.fst).Nodup) (h : lookupKey k l = some v) :
    (l.map g).sum = g (k, v) + ((eraseKey k l).map g).sum := by
  induction l with
  | nil => simp [lookupKey] at h
  | cons hd tl ih =>
      obtain ⟨k', w⟩ := hd
      simp only [List.map_cons, List.nodup_cons] at hnd
      by_cases hk : k' = k
      · subst hk
        rw [lookupKey, if_pos rfl, Option.some.injEq] at h
        subst h
        have herase : eraseKey k' ((k', w) :: tl) = tl := by
          unfold eraseKey
          rw [List.filter_cons]
          simp only [bne_self_eq_false, Bool.false_eq_true, if_false]
          exact eraseKey_of_not_mem k' tl hnd.1
        rw [herase]
        simp
      · rw [lookupKey, if_neg hk] at h
        have herase : eraseKey k ((k', w) :: tl) = (k', w) :: eraseKey k tl := by
          unfold eraseKey
          rw [List.filter_cons]
          simp [bne_iff_ne, hk]
        rw [herase]
        simp only [List.map_cons, List.sum_cons]
        rw [ih hnd.2 h]
        rw [add_left_comm]

theorem foldl_erase_eq_sub (l : List Resource) (s : Resources) :
    l.foldl (fun r x => r.erase x) s = s - (l : Multiset Resource) := by
  induction l generalizing s with
  | nil => simp
  | cons a tl ih =>
      simp only [List.foldl_cons]
      rw [ih (s.erase a)]
      rw [← Multiset.cons_coe, Multiset.sub_cons]

/-! ### Circular-buffer lemmas -/

theorem push_back_wf (b : CircularBuffer α) (x : α) (cap : Nat)
    (h : BufWf b cap) : BufWf (b.push_back x) cap := by
  obtain ⟨hcap, hlen⟩ := h
  unfold CircularBuffer.push_back
  by_cases h0 : b.capacity = 0
  · simp only [h0, if_pos rfl]
    exact ⟨hcap, hlen⟩
  · simp only [if_neg h0]
    by_cases hlt : b.data.length < b.capacity
    · simp only [if_pos hlt]
      refine ⟨hcap, ?_⟩
      simp only [List.length_append, List.length_cons, List.length_nil]
      omega
    · simp only [if_neg hlt]
      refine ⟨hcap, ?_⟩
      simp only [List.length_append, List.length_tail, List.length_cons,
        List.length_nil]
      omega

theorem mem_push_back (b : CircularBuffer α) (x y : α)
    (h : y ∈ (b.push_back x).data) : y ∈ b.data ∨ y = x := by
  unfold CircularBuffer.push_back at h
  by_cases h0 : b.capacity = 0
  · simp only [h0, if_pos rfl] at h
    exact Or.inl h
  · simp only [if_neg h0] at h
    by_cases hlt : b.data.length < b.capacity
    · simp only [if_pos hlt] at h
      rcases List.mem_append.mp h with h | h
      · exact Or.inl h
      · exact Or.inr (List.mem_singleton.mp h)
    · simp only [if_neg hlt] at h
      rcases List.mem_append.mp h with h | h
      · exact Or.inl (List.mem_of_mem_tail h)
      · exact Or.inr (List.mem_singleton.mp h)

theorem push_back_full (b : CircularBuffer α) (x : α)
    (hfull : b.data.length = b.capacity) (hpos : 0 < b.capacity) :
    (b.push_back x).data = b.data.tail ++ [x] := by
  unfold CircularBuffer.push_back
  have h0 : ¬ b.capacity = 0 := by omega
  have hlt : ¬ b.data.length < b.capacity := by omega
  simp [h0, hlt]

/-! ### Step equations for the executor operations -/

theorem addTask_eq_none (e : Executor) (task : TaskInfo)
    (h : containsKey task.task_id e.launchedTasks = true) :
    e.addTask task = none := by
  unfold Executor.addTask
  simp [h]

theorem addTask_eq_some (e : Executor) (task : TaskInfo)
    (h : containsKey task.task_id e.launchedTasks = false) :
    e.addTask task = some
      { e with
          launchedTasks :=
            (task.task_id, createTask task TaskState.TASK_STAGING e.id e.frameworkId)
              :: e.launchedTasks
          resources := e.resources + (task.resources : Resources) } := by
  unfold Executor.addTask
  simp [h, insertKey_of_not_contains _ _ _ h]

theorem removeTask_eq_launched (e : Executor) (tid : TaskID) (t : Task)
    (h : lookupKey tid e.launchedTasks = some t) :
    e.removeTask tid =
      { e with
          queuedTasks := eraseKey tid e.queuedTasks
          resources := t.resources.foldl (fun r x => r.erase x) e.resources
          launchedTasks := eraseKey tid e.launchedTasks
          completedTasks := e.completedTasks.push_back t } := by
  unfold Executor.removeTask
  simp [h]

theorem removeTask_eq_queued (e : Executor) (tid : TaskID)
    (h : lookupKey tid e.launchedTasks = none) :
    e.removeTask tid = { e with queuedTasks := eraseKey tid e.queuedTasks } := by
  unfold Executor.removeTask
  simp [h]

theorem updateTaskState_eq_found (e : Executor) (tid : TaskID) (st : TaskState)
    (h : containsKey tid e.launchedTasks = true) :
    e.updateTaskState tid st =
      { e with
          launchedTasks := e.launchedTasks.map
            (fun p => if p.1 = tid then (p.1, p.2.set_state st) else p) } := by
  unfold Executor.updateTaskState
  simp [h]

theorem updateTaskState_eq_missing (e : Executor) (tid : TaskID) (st : TaskState)
    (h : containsKey tid e.launchedTasks = false) :
    e.updateTaskState tid st = e := by
  unfold Executor.updateTaskState
  simp [h]

/-! ### Claim C2 -/

/-- C2: `removeTask` on a task-ID present in `launchedTasks` removes that
task from `launchedTasks` and appends a copy of it to the executor's
`completedTasks` ring buffer; a task-ID present only in `queuedTasks` is
erased from `queuedTasks` without being added to `completedTasks`. -/
theorem removeTask_moves_to_completed (e : Executor) (tid : TaskID) :
    (∀ t, lookupKey tid e.launchedTasks = some t →
      (e.removeTask tid).launchedTasks = eraseKey tid e.launchedTasks ∧
      (e.removeTask tid).completedTasks = e.completedTasks.push_back t) ∧
    (containsKey tid e.queuedTasks = true →
      lookupKey tid e.launchedTasks = none →
      (e.removeTask tid).queuedTasks = eraseKey tid e.queuedTasks ∧
      (e.removeTask tid).completedTasks = e.completedTasks) := by
  constructor
  · intro t h
    rw [removeTask_eq_launched e tid t h]
    exact ⟨rfl, rfl⟩
  · intro _ h
    rw [removeTask_eq_queued e tid h]
    exact ⟨rfl, rfl⟩

/-- Witness for C2, on an executor holding launched task `t1` and queued
task `t9`. -/
theorem removeTask_moves_to_completed_witness :
    ((sampleBusyExecutor.removeTask "t1").launchedTasks =
        eraseKey "t1" sampleBusyExecutor.launchedTasks ∧
      (sampleBusyExecutor.removeTask "t1").completedTasks =
        sampleBusyExecutor.completedTasks.push_back
          (createTask sampleTask1 TaskState.TASK_STAGING "e1" "f1")) ∧
    ((sampleBusyExecutor.removeTask "t9").queuedTasks =
        eraseKey "t9" sampleBusyExecutor.queuedTasks ∧
      (sampleBusyExecutor.removeTask "t9").completedTasks =
        sampleBusyExecutor.completedTasks) :=
  ⟨(removeTask_moves_to_completed sampleBusyExecutor "t1").1
      (createTask sampleTask1 TaskState.TASK_STAGING "e1" "f1") (by decide),
    (removeTask_moves_to_completed sampleBusyExecutor "t9").2 (by decide) (by decide)⟩

/-! ### Claim C5 -/

/-- C5: calling `addTask` with a task-ID already present in
`launchedTasks` trips the fatal `CHECK` (modelled as `none`); with a fresh
task-ID it never reaches the abort and inserts the task in state
`TASK_STAGING`. -/
theorem addTask_duplicate_aborts (e : Executor) (task : TaskInfo) :
    (containsKey task.task_id e.launchedTasks = true → e.addTask task = none) ∧
    (containsKey task.task_id e.launchedTasks = false →
      ∃ e' t, e.addTask task = some e' ∧
        lookupKey task.task_id e'.launchedTasks = some t ∧
        t.state = TaskState.TASK_STAGING) := by
  constructor
  · intro h
    exact addTask_eq_none e task h
  · intro h
    refine ⟨_, createTask task TaskState.TASK_STAGING e.id e.frameworkId,
      addTask_eq_some e task h, ?_, rfl⟩
    simp [lookupKey]

/-- Witness for C5: a duplicate `t1` aborts on the busy executor; the
fresh id `t2` is inserted staging on the fresh executor. -/
theorem addTask_duplicate_aborts_witness :
    sampleBusyExecutor.addTask sampleTask1 = none ∧
    ((sampleExecutor.addTask sampleTask2).bind
        (fun e' => lookupKey "t2" e'.launchedTasks)).map Task.state =
      some TaskState.TASK_STAGING := by
  refine ⟨(addTask_duplicate_aborts sampleBusyExecutor sampleTask1).1 (by decide), ?_⟩
  obtain ⟨e', t, ha, hl, hs⟩ :=
    (addTask_duplicate_aborts sampleExecutor sampleTask2).2 (by decide)
  rw [ha]
  show (lookupKey sampleTask2.task_id e'.launchedTasks).map Task.state =
    some TaskState.TASK_STAGING
  rw [hl, Option.map_some', hs]

/-! ### Claim C10 -/

/-- C10: `updateTaskState` on a task-ID absent from `launchedTasks`
leaves the executor completely unchanged; on a present task-ID only that
task's state field changes — its lookup yields the same task with the new
state, every other launched task's entry is untouched, and all other
executor fields are untouched. -/
theorem updateTaskState_frame (e : Executor) (tid : TaskID) (st : TaskState) :
    (containsKey tid e.launchedTasks = false → e.updateTaskState tid st = e) ∧
    (∀ t, lookupKey tid e.launchedTasks = some t →
      lookupKey tid (e.updateTaskState tid st).launchedTasks =
        some (t.set_state st) ∧
      (∀ k, k ≠ tid →
        lookupKey k (e.updateTaskState tid st).launchedTasks =
          lookupKey k e.launchedTasks) ∧
      (e.updateTaskState tid st).queuedTasks = e.queuedTasks ∧
      (e.updateTaskState tid st).resources = e.resources ∧
      (e.updateTaskState tid st).completedTasks = e.completedTasks ∧
      (e.updateTaskState tid st).pid = e.pid ∧
      (e.updateTaskState tid st).shutdown = e.shutdown) := by
  constructor
  · intro h
    exact updateTaskState_eq_missing e tid st h
  · intro t h
    have hc : containsKey tid e.launchedTasks = true := by
      simp [containsKey, h]
    have hl : (e.updateTaskState tid st).launchedTasks =
        e.launchedTasks.map
          (fun p => if p.1 = tid then (p.1, p.2.set_state st) else p) := by
      rw [updateTaskState_eq_found e tid st hc]
    have hframe : (e.updateTaskState tid st).queuedTasks = e.queuedTasks ∧
        (e.updateTaskState tid st).resources = e.resources ∧
        (e.updateTaskState tid st).completedTasks = e.completedTasks ∧
        (e.updateTaskState tid st).pid = e.pid ∧
        (e.updateTaskState tid st).shutdown = e.shutdown := by
      rw [updateTaskState_eq_found e tid st hc]
      exact ⟨rfl, rfl, rfl, rfl, rfl⟩
    refine ⟨?_, ?_, hframe⟩
    · rw [hl, lookupKey_map_set_state, if_pos rfl, h]
      rfl
    · intro k hk
      rw [hl, lookupKey_map_set_state, if_neg hk]

/-- Witness for C10: updating an unknown id `zz` is a no-op on the busy
executor; updating `t1` to `TASK_RUNNING` rewrites only its state. -/
theorem updateTaskState_frame_witness :
    sampleBusyExecutor.updateTaskState "zz" TaskState.TASK_RUNNING =
      sampleBusyExecutor ∧
    lookupKey "t1"
        (sampleBusyExecutor.updateTaskState "t1" TaskState.TASK_RUNNING).launchedTasks =
      some ((createTask sampleTask1 TaskState.TASK_STAGING "e1" "f1").set_state
        TaskState.TASK_RUNNING) ∧
    lookupKey "t9"
        (sampleBusyExecutor.updateTaskState "t1" TaskState.TASK_RUNNING).launchedTasks =
      lookupKey "t9" sampleBusyExecutor.launchedTasks :=
  ⟨(updateTaskState_frame sampleBusyExecutor "zz" TaskState.TASK_RUNNING).1 (by decide),
    ((updateTaskState_frame sampleBusyExecutor "t1" TaskState.TASK_RUNNING).2
        (createTask sampleTask1 TaskState.TASK_STAGING "e1" "f1") (by decide)).1,
    (((updateTaskState_frame sampleBusyExecutor "t1" TaskState.TASK_RUNNING).2
        (createTask sampleTask1 TaskState.TASK_STAGING "e1" "f1") (by decide)).2).1
      "t9" (by decide)⟩

/-! ### Claim C8 -/

/-- C8: a newly constructed `Executor` starts with an empty (zero) OS
process-ID, its shutdown flag false, its resources equal to its
`ExecutorInfo`'s declared resources, and empty `queuedTasks` and
`launchedTasks` maps; no slave-driven task operation (add, remove, state
update, enqueue) ever writes the pid, so it stays in that state until the
executor process registers. -/
theorem executor_initial_state (frameworkId : FrameworkID) (info : ExecutorInfo)
    (uuid directory : String) :
    (mkExecutor frameworkId info uuid directory).pid = "" ∧
    (mkExecutor frameworkId info uuid directory).shutdown = false ∧
    (mkExecutor frameworkId info uuid directory).resources =
      (info.resources : Resources) ∧
    (mkExecutor frameworkId info uuid directory).queuedTasks = [] ∧
    (mkExecutor frameworkId info uuid directory).launchedTasks = [] ∧
    (∀ (e e' : Executor) (op : ExecOp), e.applyOp op = some e' → e'.pid = e.pid) := by
  refine ⟨rfl, rfl, rfl, rfl, rfl, ?_⟩
  intro e e' op h
  cases op with
  | add task =>
      by_cases hc : containsKey task.task_id e.launchedTasks
      · rw [show e.applyOp (ExecOp.add task) = e.addTask task from rfl,
          addTask_eq_none e task hc] at h
        cases h
      · rw [show e.applyOp (ExecOp.add task) = e.addTask task from rfl,
          addTask_eq_some e task (by simpa using hc)] at h
        cases h
        rfl
  | remove taskId =>
      simp only [Executor.applyOp, Option.some.injEq] at h
      subst h
      rcases hl : lookupKey taskId e.launchedTasks with _ | t
      · rw [removeTask_eq_queued e taskId hl]
      · rw [removeTask_eq_launched e taskId t hl]
  | update taskId st =>
      simp only [Executor.applyOp, Option.some.injEq] at h
      subst h
      by_cases hc : containsKey taskId e.launchedTasks
      · rw [updateTaskState_eq_found e taskId st hc]
      · rw [updateTaskState_eq_missing e taskId st (by simpa using hc)]
  | enqueue task =>
      simp only [Executor.applyOp, Option.some.injEq] at h
      subst h
      rfl

/-- Witness for C8, at the sample executor and a concrete remove step. -/
theorem executor_initial_state_witness :
    sampleExecutor.pid = "" ∧ sampleExecutor.shutdown = false ∧
    sampleExecutor.resources = (sampleInfo.resources : Resources) ∧
    sampleExecutor.queuedTasks = [] ∧ sampleExecutor.launchedTasks = [] ∧
    (sampleBusyExecutor.removeTask "t1").pid = sampleBusyExecutor.pid := by
  obtain ⟨h1, h2, h3, h4, h5, h6⟩ :=
    executor_initial_state "f1" sampleInfo "uuid-1" "/tmp/e1"
  exact ⟨h1, h2, h3, h4, h5,
    h6 sampleBusyExecutor (sampleBusyExecutor.removeTask "t1")
      (ExecOp.remove "t1") rfl⟩

/-! ### Claim C9 -/

/-- C9: the `ExecutorInfo` synthesized for a command task has an
executor-ID equal to the task's task-ID value, and its `source` field is
also set to the task-ID value. -/
theorem command_executor_id_and_source (fw : Framework)
    (realpath : String → Try String) (task : TaskInfo) (cmd : CommandInfo)
    (hc : task.command = some cmd) (he : task.executor = none) :
    ∃ e, fw.getExecutorInfo realpath task = some e ∧
      e.executor_id = task.task_id ∧ e.source = task.task_id := by
  unfold Framework.getExecutorInfo
  rw [hc, he]
  exact ⟨_, rfl, rfl, rfl⟩

/-- Witness for C9, at the concrete command task `t2`. -/
theorem command_executor_id_and_source_witness :
    (sampleFramework.getExecutorInfo sampleRealpathOk sampleTask2).map
        ExecutorInfo.executor_id = some "t2" ∧
    (sampleFramework.getExecutorInfo sampleRealpathOk sampleTask2).map
        ExecutorInfo.source = some "t2" := by
  obtain ⟨e, h1, h2, h3⟩ := command_executor_id_and_source sampleFramework
    sampleRealpathOk sampleTask2 sampleCmd rfl rfl
  rw [h1]
  exact ⟨by rw [Option.map_some', h2]; rfl, by rw [Option.map_some', h3]; rfl⟩

/-! ### Claim C3 -/

/-- C3: for a command task, the synthesized executor's name embeds the
command string: when the command is longer than 15 characters only its
first 12 characters followed by "..." appear, otherwise the full command
string appears. -/
theorem command_executor_name_truncation (fw : Framework)
    (realpath : String → Try String) (task : TaskInfo) (cmd : CommandInfo)
    (hc : task.command = some cmd) (he : task.executor = none) :
    ∃ e, fw.getExecutorInfo realpath task = some e ∧
      e.name = "Command Executor " ++ "(Task: " ++ task.task_id ++ ") " ++
        "(Command: sh -c \x27" ++
        (if cmd.value.length > 15 then cmd.value.take 12 ++ "..."
          else cmd.value) ++ "\x27)" := by
  unfold Framework.getExecutorInfo
  rw [hc, he]
  refine ⟨_, rfl, ?_⟩
  by_cases hlen : cmd.value.length > 15
  · rw [if_pos hlen, if_pos hlen]
    simp only [String.append_assoc]
    rfl
  · rw [if_neg hlen, if_neg hlen]
    simp only [String.append_assoc]

/-- Witness for C3: the 20-character command is truncated to its first 12
characters plus "...", and the 9-character command appears in full. -/
theorem command_executor_name_truncation_witness :
    (sampleFramework.getExecutorInfo sampleRealpathOk sampleTask3).map
        ExecutorInfo.name =
      some "Command Executor (Task: t3) (Command: sh -c \x27echo 0123456...\x27)" ∧
    (sampleFramework.getExecutorInfo sampleRealpathOk sampleTask2).map
        ExecutorInfo.name =
      some "Command Executor (Task: t2) (Command: sh -c \x27sleep 100\x27)" := by
  constructor
  · obtain ⟨e, h1, h2⟩ := command_executor_name_truncation sampleFramework
      sampleRealpathOk sampleTask3 longCmd rfl rfl
    rw [h1, Option.map_some', h2]
    decide
  · obtain ⟨e, h1, h2⟩ := command_executor_name_truncation sampleFramework
      sampleRealpathOk sampleTask2 sampleCmd rfl rfl
    rw [h1, Option.map_some', h2]
    decide

/-! ### Claim C4 -/

/-- C4: for a command task the synthesized executor's command executable
is the `realpath` resolution of `mesos-executor` joined to `launcher_dir`
when that resolution succeeds; when it fails the command becomes a shell
command echoing the resolution error and exiting with status 1, and the
operation itself still succeeds. -/
theorem command_executor_realpath_fallback (fw : Framework)
    (realpath : String → Try String) (task : TaskInfo) (cmd : CommandInfo)
    (hc : task.command = some cmd) (he : task.executor = none) :
    ∃ e, fw.getExecutorInfo realpath task = some e ∧
      (∀ p, realpath (pathJoin fw.flags.launcher_dir "mesos-executor") =
          Try.ok p → e.command.value = p) ∧
      (∀ msg, realpath (pathJoin fw.flags.launcher_dir "mesos-executor") =
          Try.failure msg →
        e.command.value = "echo \x27" ++ msg ++ "\x27; exit 1") := by
  unfold Framework.getExecutorInfo
  rw [hc, he]
  refine ⟨_, rfl, ?_, ?_⟩
  · intro p hp
    rw [hp]
  · intro msg hmsg
    rw [hmsg]

/-- Witness for C4: on the succeeding filesystem oracle the command is
the resolved path; on the failing oracle it is the echo-and-exit
fallback. -/
theorem command_executor_realpath_fallback_witness :
    (sampleFramework.getExecutorInfo sampleRealpathOk sampleTask2).map
        (fun e => e.command.value) = some "/usr/libexec/mesos/mesos-executor" ∧
    (sampleFramework.getExecutorInfo sampleRealpathFail sampleTask2).map
        (fun e => e.command.value) =
      some "echo \x27No such file or directory: /usr/libexec/mesos/mesos-executor\x27; exit 1" := by
  constructor
  · obtain ⟨e, h1, h2, h3⟩ := command_executor_realpath_fallback sampleFramework
      sampleRealpathOk sampleTask2 sampleCmd rfl rfl
    rw [h1, Option.map_some']
    rw [show e.command.value = "/usr/libexec/mesos/mesos-executor" from
      h2 "/usr/libexec/mesos/mesos-executor" rfl]
  · obtain ⟨e, h1, h2, h3⟩ := command_executor_realpath_fallback sampleFramework
      sampleRealpathFail sampleTask2 sampleCmd rfl rfl
    rw [h1, Option.map_some']
    rw [show e.command.value =
        "echo \x27" ++ "No such file or directory: /usr/libexec/mesos/mesos-executor" ++
          "\x27; exit 1" from
      h3 "No such file or directory: /usr/libexec/mesos/mesos-executor" rfl]
    decide

/-! ### Step equations for the framework operations -/

theorem destroyExecutor_eq_found (fw : Framework) (executorId : ExecutorID)
    (ex : Executor) (h : lookupKey executorId fw.executors = some ex) :
    fw.destroyExecutor executorId =
      { fw with
          executors := eraseKey executorId fw.executors
          completedExecutors := fw.completedExecutors.push_back ex } := by
  unfold Framework.destroyExecutor
  simp [h]

theorem destroyExecutor_eq_missing (fw : Framework) (executorId : ExecutorID)
    (h : lookupKey executorId fw.executors = none) :
    fw.destroyExecutor executorId = fw := by
  unfold Framework.destroyExecutor
  simp [h]

theorem createExecutor_eq_fresh (fw : Framework) (info : ExecutorInfo)
    (uuid directory : String)
    (h : containsKey info.executor_id fw.executors = false) :
    fw.createExecutor info uuid directory =
      some { fw with
              executors := insertKey info.executor_id
                (mkExecutor fw.id info uuid directory) fw.executors } := by
  unfold Framework.createExecutor
  simp [h]

/-! ### Claim C1 -/

theorem tasksResources_cons (k : TaskID) (t : Task) (l : List (TaskID × Task)) :
    tasksResources ((k, t) :: l) = (t.resources : Resources) + tasksResources l := by
  simp [tasksResources]

theorem tasksResources_split (l : List (TaskID × Task)) (k : TaskID) (t : Task)
    (hnd : (l.map Prod.fst).Nodup) (h : lookupKey k l = some t) :
    tasksResources l =
      (t.resources : Resources) + tasksResources (eraseKey k l) :=
  map_sum_split_of_lookup _ l k t hnd h

theorem tasksResources_map_set_state (l : List (TaskID × Task)) (tid : TaskID)
    (st : TaskState) :
    tasksResources
        (l.map (fun p => if p.1 = tid then (p.1, p.2.set_state st) else p)) =
      tasksResources l := by
  unfold tasksResources
  rw [List.map_map]
  congr 1
  apply List.map_congr_left
  intro p _
  by_cases h : p.1 = tid <;> simp [h, Task.set_state]

theorem addTask_inv (e e' : Executor) (task : TaskInfo)
    (h : e.addTask task = some e') (hinv : ExecInv e) :
    ExecInv e' ∧ e'.info = e.info := by
  by_cases hc : containsKey task.task_id e.launchedTasks
  · rw [addTask_eq_none e task hc] at h
    cases h
  · have hc' : containsKey task.task_id e.launchedTasks = false := by simpa using hc
    rw [addTask_eq_some e task hc'] at h
    cases h
    refine ⟨⟨?_, ?_⟩, rfl⟩
    · show e.resources + (task.resources : Resources) =
        (e.info.resources : Resources) +
          tasksResources ((task.task_id,
              createTask task TaskState.TASK_STAGING e.id e.frameworkId)
            :: e.launchedTasks)
      rw [tasksResources_cons, hinv.1, launchedResources, add_assoc,
        add_comm (tasksResources e.launchedTasks) ((task.resources : Resources))]
      rfl
    · show (((task.task_id,
          createTask task TaskState.TASK_STAGING e.id e.frameworkId)
            :: e.launchedTasks).map Prod.fst).Nodup
      rw [List.map_cons, List.nodup_cons]
      exact ⟨(lookupKey_eq_none_iff _ _).mp ((containsKey_eq_false_iff _ _).mp hc'),
        hinv.2⟩

theorem removeTask_inv (e : Executor) (tid : TaskID) (hinv : ExecInv e) :
    ExecInv (e.removeTask tid) ∧ (e.removeTask tid).info = e.info := by
  rcases hl : lookupKey tid e.launchedTasks with _ | t
  · rw [removeTask_eq_queued e tid hl]
    exact ⟨hinv, rfl⟩
  · rw [removeTask_eq_launched e tid t hl]
    refine ⟨⟨?_, nodup_keys_eraseKey tid _ hinv.2⟩, rfl⟩
    show t.resources.foldl (fun r x => r.erase x) e.resources =
      (e.info.resources : Resources) + tasksResources (eraseKey tid e.launchedTasks)
    rw [foldl_erase_eq_sub, hinv.1, launchedResources,
      tasksResources_split e.launchedTasks tid t hinv.2 hl, eraseKey, add_left_comm]
    exact add_tsub_cancel_left _ _

theorem updateTaskState_inv (e : Executor) (tid : TaskID) (st : TaskState)
    (hinv : ExecInv e) :
    ExecInv (e.updateTaskState tid st) ∧ (e.updateTaskState tid st).info = e.info := by
  by_cases hc : containsKey tid e.launchedTasks
  · rw [updateTaskState_eq_found e tid st hc]
    refine ⟨⟨?_, ?_⟩, rfl⟩
    · show e.resources = (e.info.resources : Resources) +
        tasksResources (e.launchedTasks.map
          (fun p => if p.1 = tid then (p.1, p.2.set_state st) else p))
      rw [tasksResources_map_set_state]
      exact hinv.1
    · show ((e.launchedTasks.map
          (fun p => if p.1 = tid then (p.1, p.2.set_state st) else p)).map
            Prod.fst).Nodup
      rw [show ((e.launchedTasks.map
          (fun p => if p.1 = tid then (p.1, p.2.set_state st) else p)).map
            Prod.fst) = e.launchedTasks.map Prod.fst from
        keys_map_modify e.launchedTasks tid (fun t => t.set_state st)]
      exact hinv.2
  · rw [updateTaskState_eq_missing e tid st (by simpa using hc)]
    exact ⟨hinv, rfl⟩

theorem applyOp_inv (e e' : Executor) (op : ExecOp)
    (h : e.applyOp op = some e') (hinv : ExecInv e) :
    ExecInv e' ∧ e'.info = e.info := by
  cases op with
  | add task => exact addTask_inv e e' task h hinv
  | remove taskId =>
      simp only [Executor.applyOp, Option.some.injEq] at h
      subst h
      exact removeTask_inv e taskId hinv
  | update taskId st =>
      simp only [Executor.applyOp, Option.some.injEq] at h
      subst h
      exact updateTaskState_inv e taskId st hinv
  | enqueue task =>
      simp only [Executor.applyOp, Option.some.injEq] at h
      subst h
      exact ⟨hinv, rfl⟩

theorem runOps_inv (ops : List ExecOp) (e e' : Executor)
    (h : Executor.runOps e ops = some e') (hinv : ExecInv e) :
    ExecInv e' ∧ e'.info = e.info := by
  induction ops generalizing e with
  | nil =>
      simp only [Executor.runOps, Option.some.injEq] at h
      subst h
      exact ⟨hinv, rfl⟩
  | cons op ops ih =>
      simp only [Executor.runOps, Option.bind_eq_some] at h
      obtain ⟨e1, h1, h2⟩ := h
      obtain ⟨hinv1, hinfo1⟩ := applyOp_inv e e1 op h1 hinv
      obtain ⟨hinv2, hinfo2⟩ := ih e1 h2 hinv1
      exact ⟨hinv2, hinfo2.trans hinfo1⟩

/-- C1: after any sequence of slave-driven task operations on a freshly
constructed executor, the executor's `resources` field equals its initial
`ExecutorInfo` resources plus the sum of the declared resources of the
tasks currently in `launchedTasks`; queued-only tasks contribute
nothing. -/
theorem executor_resources_accounting (frameworkId : FrameworkID)
    (info : ExecutorInfo) (uuid directory : String) (ops : List ExecOp)
    (e' : Executor)
    (h : Executor.runOps (mkExecutor frameworkId info uuid directory) ops = some e') :
    e'.resources = (info.resources : Resources) + launchedResources e' := by
  have hinv0 : ExecInv (mkExecutor frameworkId info uuid directory) := by
    refine ⟨?_, ?_⟩
    · show (info.resources : Resources) =
        (info.resources : Resources) + tasksResources []
      simp [tasksResources]
    · show (([] : List (TaskID × Task)).map Prod.fst).Nodup
      simp
  obtain ⟨⟨hres, _⟩, hinfo⟩ := runOps_inv ops _ e' h hinv0
  rw [hres, hinfo]
  rfl

/-- Witness for C1: adding `t1`, enqueueing `t2` and then removing `t1`
returns the sample executor's resources to its declared executor
resources. -/
theorem executor_resources_accounting_witness :
    Executor.runOps sampleExecutor
        [ExecOp.add sampleTask1, ExecOp.enqueue sampleTask2, ExecOp.remove "t1"] =
      some sampleRunEnd ∧
    sampleRunEnd.resources =
      (sampleInfo.resources : Resources) + launchedResources sampleRunEnd :=
  ⟨by decide,
    executor_resources_accounting "f1" sampleInfo "uuid-1" "/tmp/e1"
      [ExecOp.add sampleTask1, ExecOp.enqueue sampleTask2, ExecOp.remove "t1"]
      sampleRunEnd (by decide)⟩

/-! ### Claim C6 -/

theorem execOp_wf (e e' : Executor) (op : ExecOp)
    (h : e.applyOp op = some e') (hwf : ExecutorWf e) : ExecutorWf e' := by
  cases op with
  | add task =>
      by_cases hc : containsKey task.task_id e.launchedTasks
      · rw [show e.applyOp (ExecOp.add task) = e.addTask task from rfl,
          addTask_eq_none e task hc] at h
        cases h
      · rw [show e.applyOp (ExecOp.add task) = e.addTask task from rfl,
          addTask_eq_some e task (by simpa using hc)] at h
        cases h
        exact hwf
  | remove taskId =>
      simp only [Executor.applyOp, Option.some.injEq] at h
      subst h
      rcases hl : lookupKey taskId e.launchedTasks with _ | t
      · rw [removeTask_eq_queued e taskId hl]
        exact hwf
      · rw [removeTask_eq_launched e taskId t hl]
        exact push_back_wf e.completedTasks t _ hwf
  | update taskId st =>
      simp only [Executor.applyOp, Option.some.injEq] at h
      subst h
      by_cases hc : containsKey taskId e.launchedTasks
      · rw [updateTaskState_eq_found e taskId st hc]
        exact hwf
      · rw [updateTaskState_eq_missing e taskId st (by simpa using hc)]
        exact hwf
  | enqueue task =>
      simp only [Executor.applyOp, Option.some.injEq] at h
      subst h
      exact hwf

theorem frameworkOp_wf (fw fw' : Framework) (op : FrameworkOp)
    (h : fw.applyOp op = some fw') (hwf : FrameworkWf fw) : FrameworkWf fw' := by
  obtain ⟨hbuf, hexec, hcomp⟩ := hwf
  cases op with
  | createExec info uuid directory =>
      rw [show fw.applyOp (FrameworkOp.createExec info uuid directory) =
        fw.createExecutor info uuid directory from rfl] at h
      by_cases hc : containsKey info.executor_id fw.executors
      · unfold Framework.createExecutor at h
        simp [hc] at h
      · rw [createExecutor_eq_fresh fw info uuid directory (by simpa using hc)] at h
        cases h
        refine ⟨hbuf, ?_, hcomp⟩
        intro p hp
        rcases mem_insertKey _ _ _ _ hp with hmem | hmem
        · subst hmem
          exact ⟨rfl, Nat.zero_le _⟩
        · exact hexec p hmem
  | destroyExec executorId =>
      simp only [Framework.applyOp, Option.some.injEq] at h
      subst h
      rcases hl : lookupKey executorId fw.executors with _ | ex
      · rw [destroyExecutor_eq_missing fw executorId hl]
        exact ⟨hbuf, hexec, hcomp⟩
      · rw [destroyExecutor_eq_found fw executorId ex hl]
        refine ⟨push_back_wf _ ex _ hbuf, ?_, ?_⟩
        · intro p hp
          exact hexec p ((eraseKey_sublist executorId fw.executors).subset hp)
        · intro e he
          rcases mem_push_back fw.completedExecutors ex e he with hmem | hmem
          · exact hcomp e hmem
          · subst hmem
            exact hexec (executorId, e) (lookupKey_mem _ _ _ hl)
  | taskOp executorId eop =>
      simp only [Framework.applyOp] at h
      rcases hl : lookupKey executorId fw.executors with _ | ex
      · simp only [hl, Option.some.injEq] at h
        subst h
        exact ⟨hbuf, hexec, hcomp⟩
      · simp only [hl] at h
        rcases ha : ex.applyOp eop with _ | e2
        · rw [ha] at h
          cases h
        · rw [ha] at h
          simp only [Option.map_some', Option.some.injEq] at h
          subst h
          refine ⟨hbuf, ?_, hcomp⟩
          intro p hp
          rcases mem_insertKey _ _ _ _ hp with hmem | hmem
          · subst hmem
            exact execOp_wf ex e2 eop ha
              (hexec (executorId, ex) (lookupKey_mem _ _ _ hl))
          · exact hexec p hmem

theorem frameworkRunOps_wf (ops : List FrameworkOp) (fw fw' : Framework)
    (h : Framework.runOps fw ops = some fw') (hwf : FrameworkWf fw) :
    FrameworkWf fw' := by
  induction ops generalizing fw with
  | nil =>
      simp only [Framework.runOps, Option.some.injEq] at h
      subst h
      exact hwf
  | cons op ops ih =>
      simp only [Framework.runOps, Option.bind_eq_some] at h
      obtain ⟨fw1, h1, h2⟩ := h
      exact ih fw1 h2 (frameworkOp_wf fw fw1 op h1 hwf)

/-- C6: on any framework state reachable from a fresh framework, the
completed-entity ring buffers are bounded: `completedExecutors` holds at
most `MAX_COMPLETED_EXECUTORS_PER_FRAMEWORK` entries, every executor's
`completedTasks` holds at most `MAX_COMPLETED_TASKS_PER_EXECUTOR`
entries, and a `destroyExecutor` push into a full ring evicts the oldest
entry. -/
theorem completed_buffers_bounded (id : FrameworkID) (info : FrameworkInfo)
    (pid : UPID) (flags : Flags) (ops : List FrameworkOp) (fw' : Framework)
    (h : Framework.runOps (mkFramework id info pid flags) ops = some fw') :
    fw'.completedExecutors.data.length ≤ MAX_COMPLETED_EXECUTORS_PER_FRAMEWORK ∧
    (∀ p ∈ fw'.executors,
      p.2.completedTasks.data.length ≤ MAX_COMPLETED_TASKS_PER_EXECUTOR) ∧
    (∀ e ∈ fw'.completedExecutors.data,
      e.completedTasks.data.length ≤ MAX_COMPLETED_TASKS_PER_EXECUTOR) ∧
    (∀ executorId ex, lookupKey executorId fw'.executors = some ex →
      fw'.completedExecutors.data.length = fw'.completedExecutors.capacity →
      (fw'.destroyExecutor executorId).completedExecutors.data =
        fw'.completedExecutors.data.tail ++ [ex]) := by
  have hwf0 : FrameworkWf (mkFramework id info pid flags) := by
    refine ⟨⟨rfl, Nat.zero_le _⟩, ?_, ?_⟩
    · intro p hp
      cases hp
    · intro e he
      cases he
  obtain ⟨hbuf, hexec, hcomp⟩ := frameworkRunOps_wf ops _ fw' h hwf0
  refine ⟨hbuf.2, fun p hp => (hexec p hp).2, fun e he => (hcomp e he).2, ?_⟩
  intro executorId ex hl hfull
  rw [destroyExecutor_eq_found fw' executorId ex hl]
  exact push_back_full fw'.completedExecutors ex hfull (by rw [hbuf.1]; decide)

/-- Witness for C6: the concrete create/run/destroy scenario ends with a
single completed executor, within both bounds. -/
theorem completed_buffers_bounded_witness :
    Framework.runOps
        (mkFramework "f1" { name := "fw", user := "root" } "scheduler@host"
          { launcher_dir := "/usr/libexec/mesos", work_dir := "/var/lib/mesos" })
        sampleFrameworkOps = some sampleFwEnd ∧
    sampleFwEnd.completedExecutors.data.length ≤
      MAX_COMPLETED_EXECUTORS_PER_FRAMEWORK ∧
    sampleExecEnd.completedTasks.data.length ≤ MAX_COMPLETED_TASKS_PER_EXECUTOR :=
  ⟨by decide,
    (completed_buffers_bounded "f1" { name := "fw", user := "root" }
      "scheduler@host" { launcher_dir := "/usr/libexec/mesos", work_dir := "/var/lib/mesos" }
      sampleFrameworkOps sampleFwEnd (by decide)).1,
    (completed_buffers_bounded "f1" { name := "fw", user := "root" }
      "scheduler@host" { launcher_dir := "/usr/libexec/mesos", work_dir := "/var/lib/mesos" }
      sampleFrameworkOps sampleFwEnd (by decide)).2.2.1 sampleExecEnd (by decide)⟩

/-! ### Claim C7 -/

theorem count_map_pair (ls : List String) (q : Nat) (l : String) (p : Nat) :
    (ls.map (fun s => (s, q))).count (l, p) = if q = p then ls.count l else 0 := by
  induction ls with
  | nil => simp
  | cons a ls ih =>
      simp only [List.map_cons, List.count_cons, ih]
      by_cases hq : q = p
      · by_cases ha : a = l
        · have hpair : ((a, q) == (l, p)) = true := by simp [ha, hq]
          have hal : (a == l) = true := by simp [ha]
          simp [hq, hpair, hal, ha]
        · have hpair : ((a, q) == (l, p)) = false := by simp [ha]
          have hal : (a == l) = false := by simp [ha]
          simp [hq, hpair, hal, ha]
      · have hpair : ((a, q) == (l, p)) = false := by simp [hq]
        simp [hq, hpair]

theorem count_pairs_flatten (qs : List Nat) (ls : List String) (l : String) (p : Nat) :
    ((qs.map (fun q => ls.map (fun s => (s, q)))).flatten).count (l, p) =
      qs.count p * ls.count l := by
  induction qs with
  | nil => simp
  | cons q qs ih =>
      simp only [List.map_cons, List.flatten_cons, List.count_append, ih,
        count_map_pair, List.count_cons]
      by_cases hq : q = p
      · simp only [hq, if_pos rfl, beq_self_eq_true, if_true]
        ring
      · have : (q == p) = false := by simp [hq]
        simp [hq, this]

theorem addListener_listeners_nodup (r : Reaper) (s : String)
    (h : r.listeners.Nodup) : (r.addListener s).listeners.Nodup := by
  unfold Reaper.addListener
  by_cases hs : s ∈ r.listeners
  · rw [if_pos hs]
    exact h
  · rw [if_neg hs]
    refine List.nodup_append.mpr ⟨h, List.nodup_singleton s, ?_⟩
    intro a ha hb
    rw [List.mem_singleton.mp hb] at ha
    exact hs ha

theorem addListener_monitored (r : Reaper) (s : String) :
    (r.addListener s).monitored = r.monitored := by
  unfold Reaper.addListener
  by_cases hs : s ∈ r.listeners
  · rw [if_pos hs]
  · rw [if_neg hs]

theorem monitor_listeners (r : Reaper) (q : Nat) :
    (r.monitor q).listeners = r.listeners := by
  unfold Reaper.monitor
  by_cases hq : q ∈ r.monitored
  · rw [if_pos hq]
  · rw [if_neg hq]

theorem monitor_monitored_nodup (r : Reaper) (q : Nat)
    (h : r.monitored.Nodup) : (r.monitor q).monitored.Nodup := by
  unfold Reaper.monitor
  by_cases hq : q ∈ r.monitored
  · rw [if_pos hq]
    exact h
  · rw [if_neg hq]
    refine List.nodup_append.mpr ⟨h, List.nodup_singleton q, ?_⟩
    intro a ha hb
    rw [List.mem_singleton.mp hb] at ha
    exact hq ha

theorem mem_monitor (r : Reaper) (q p : Nat) :
    p ∈ (r.monitor q).monitored ↔ p ∈ r.monitored ∨ p = q := by
  unfold Reaper.monitor
  by_cases hq : q ∈ r.monitored
  · rw [if_pos hq]
    constructor
    · exact Or.inl
    · rintro (h | h)
      · exact h
      · rw [h]
        exact hq
  · rw [if_neg hq]
    simp

theorem reaper_run_count_le (ops : List ReaperOp) (r : Reaper) (l : String)
    (p : Nat) (hln : r.listeners.Nodup) (hmn : r.monitored.Nodup) :
    ((Reaper.run r ops).2).count (l, p) ≤
      (if p ∈ r.monitored then 1 else 0) + countMonitor p ops := by
  induction ops generalizing r with
  | nil => simp [Reaper.run, countMonitor]
  | cons op ops ih =>
      cases op with
      | addListener s =>
          simp only [Reaper.run, Reaper.step, List.nil_append]
          have h := ih (r.addListener s) (addListener_listeners_nodup r s hln)
            (by rw [addListener_monitored]; exact hmn)
          rw [addListener_monitored] at h
          exact h
      | monitor q =>
          simp only [Reaper.run, Reaper.step, List.nil_append]
          have h := ih (r.monitor q) (by rw [monitor_listeners]; exact hln)
            (monitor_monitored_nodup r q hmn)
          have hx : (if p ∈ (r.monitor q).monitored then 1 else 0) ≤
              (if p ∈ r.monitored then 1 else 0) + (if q = p then 1 else 0) := by
            by_cases hm' : p ∈ (r.monitor q).monitored
            · rw [if_pos hm']
              rcases (mem_monitor r q p).mp hm' with hm | hpq
              · rw [if_pos hm]
                exact le_self_add
              · rw [if_pos hpq.symm]
                exact le_add_self
            · rw [if_neg hm']
              exact Nat.zero_le _
          have hcm : countMonitor p (ReaperOp.monitor q :: ops) =
              (if q = p then 1 else 0) + countMonitor p ops := rfl
          rw [hcm]
          omega
      | tick alive =>
          simp only [Reaper.run, Reaper.step]
          have hln' : ((r.tick alive).1).listeners.Nodup := hln
          have hmn' : ((r.tick alive).1).monitored.Nodup := hmn.filter _
          have h := ih (r.tick alive).1 hln' hmn'
          have hcm : countMonitor p (ReaperOp.tick alive :: ops) =
              countMonitor p ops := rfl
          rw [hcm, List.count_append]
          have h1 : ((r.tick alive).2).count (l, p) =
              (r.monitored.filter (fun x => !(alive x))).count p *
                r.listeners.count l :=
            count_pairs_flatten _ _ _ _
          by_cases hm : p ∈ r.monitored
          · rw [if_pos hm]
            by_cases hal : alive p
            · have hpd : p ∉ r.monitored.filter (fun x => !(alive x)) := by
                simp [List.mem_filter, hal]
              have h1z : ((r.tick alive).2).count (l, p) = 0 := by
                rw [h1, List.count_eq_zero.mpr hpd, Nat.zero_mul]
              have hm' : p ∈ ((r.tick alive).1).monitored := by
                show p ∈ r.monitored.filter (fun x => alive x)
                exact List.mem_filter.mpr ⟨hm, hal⟩
              rw [if_pos hm'] at h
              omega
            · have hm' : p ∉ ((r.tick alive).1).monitored := by
                intro hx
                exact hal (List.of_mem_filter hx)
              rw [if_neg hm'] at h
              have hc1 : r.listeners.count l ≤ 1 :=
                List.nodup_iff_count_le_one.mp hln l
              have hc2 : (r.monitored.filter (fun x => !(alive x))).count p ≤ 1 :=
                List.nodup_iff_count_le_one.mp (hmn.filter _) p
              have hc : ((r.tick alive).2).count (l, p) ≤ 1 := by
                rw [h1]
                calc (r.monitored.filter (fun x => !(alive x))).count p *
                    r.listeners.count l ≤ 1 * 1 := Nat.mul_le_mul hc2 hc1
                  _ = 1 := by norm_num
              omega
          · rw [if_neg hm]
            have hpd : p ∉ r.monitored.filter (fun x => !(alive x)) := by
              intro hx
              exact hm (List.mem_filter.mp hx).1
            have h1z : ((r.tick alive).2).count (l, p) = 0 := by
              rw [h1, List.count_eq_zero.mpr hpd, Nat.zero_mul]
            have hm' : p ∉ ((r.tick alive).1).monitored := by
              intro hx
              exact hm (List.mem_filter.mp hx).1
            rw [if_neg hm'] at h
            omega

/-- C7: the reaper delivers at most one `processExited` notification per
listener for a PID monitored once, and when a tick observes a monitored
PID no longer alive it fires exactly one notification to each subscribed
listener and drops the PID (so no second notification can follow). -/
theorem reaper_notifies_once (ops : List ReaperOp) (l : String) (p : Nat)
    (alive : Nat → Bool) (r : Reaper) :
    (countMonitor p ops ≤ 1 →
      ((Reaper.run mkReaper ops).2).count (l, p) ≤ 1) ∧
    (r.monitored.Nodup → r.listeners.Nodup → p ∈ r.monitored →
      alive p = false → l ∈ r.listeners →
      ((r.tick alive).2).count (l, p) = 1 ∧
        p ∉ ((r.tick alive).1).monitored) := by
  constructor
  · intro hcm
    have h := reaper_run_count_le ops mkReaper l p (by simp [mkReaper])
      (by simp [mkReaper])
    have hmem : p ∉ mkReaper.monitored := by simp [mkReaper]
    rw [if_neg hmem] at h
    omega
  · intro hmn hln hm hal hl
    constructor
    · have h1 : ((r.tick alive).2).count (l, p) =
          (r.monitored.filter (fun x => !(alive x))).count p *
            r.listeners.count l :=
        count_pairs_flatten _ _ _ _
      have hpd : p ∈ r.monitored.filter (fun x => !(alive x)) :=
        List.mem_filter.mpr ⟨hm, by simp [hal]⟩
      rw [h1, List.count_eq_one_of_mem (hmn.filter _) hpd,
        List.count_eq_one_of_mem hln hl]
    · intro hx
      have := List.of_mem_filter hx
      rw [hal] at this
      cases this

/-- Witness for C7: one listener, PID 7 monitored once, three polls (the
first observes it alive, the next two observe it gone): exactly one
notification in total, fired by the first tick that observes death. -/
theorem reaper_notifies_once_witness :
    ((Reaper.run mkReaper [ReaperOp.addListener "listener", ReaperOp.monitor 7,
        ReaperOp.tick (fun _ => true), ReaperOp.tick (fun _ => false),
        ReaperOp.tick (fun _ => false)]).2).count ("listener", 7) ≤ 1 ∧
    ((({ listeners := ["listener"], monitored := [7] } : Reaper).tick
        (fun _ => false)).2).count ("listener", 7) = 1 :=
  ⟨(reaper_notifies_once [ReaperOp.addListener "listener", ReaperOp.monitor 7,
        ReaperOp.tick (fun _ => true), ReaperOp.tick (fun _ => false),
        ReaperOp.tick (fun _ => false)] "listener" 7 (fun _ => false)
        { listeners := ["listener"], monitored := [7] }).1 (by decide),
    ((reaper_notifies_once [] "listener" 7 (fun _ => false)
        { listeners := ["listener"], monitored := [7] }).2 (by decide) (by decide)
        (by decide) rfl (by decide)).1⟩

end MesosSlave
